import Mathlib

/-!
Formal model of the StudyQuest backend (Hono server, `index.tsx`).

Timestamps are modelled as integer milliseconds since the Unix epoch.
JavaScript `Date.prototype.toISOString` strings compare lexicographically
exactly as the underlying millisecond values compare numerically, and two
timestamps yield the same `YYYY-MM-DD` truncation exactly when they have the
same floor-division day index, so ISO-string comparison in the source is
modelled as integer comparison and date truncation as floor division by
86400000 (JavaScript time has no leap seconds; every UTC day is exactly
86400000 ms).
-/

namespace StudyApp

/-- Milliseconds in one UTC day (`86400000` in the source). -/
def msPerDay : Int := 86400000

/-- UTC calendar-day index of a millisecond timestamp: the `YYYY-MM-DD`
truncation `new Date(t).toISOString().split('T')[0]` of the source, as a
floor division (JavaScript `Date` uses floor semantics for negative times). -/
def utcDay (t : Int) : Int := Int.fdiv t msPerDay

/-- User profile as initialised by the signup handler:
`{ name, email, xp: 0, level: 1, streak: 0, lastStudyDate: null,
onboardingComplete: false }` (the `achievements` array and `createdAt` play no
role in any handler modelled here). `lastStudyDate` is an ISO timestamp or
`null`, modelled as `Option Int`. -/
structure UserProfile where
  name : String
  email : String
  xp : Nat
  level : Nat
  streak : Nat
  lastStudyDate : Option Int
  onboardingComplete : Bool
deriving DecidableEq, Repr

/-- Streak transition of the study-record handler:
`today = new Date().toISOString().split('T')[0]`,
`lastStudyDate = profile?.lastStudyDate?.split('T')[0]`;
if they are equal the streak is unchanged; else if `lastStudyDate` equals the
date of `Date.now() - 86400000` the streak is incremented; otherwise it resets
to 1.  A `null` `lastStudyDate` (undefined after optional chaining) matches
neither string and falls to the reset branch. -/
def newStreakOf (p : UserProfile) (now : Int) : Nat :=
  match p.lastStudyDate with
  | none => 1
  | some d =>
    if utcDay d = utcDay now then p.streak
    else if utcDay d = utcDay (now - msPerDay) then p.streak + 1
    else 1

/-- Core of `POST /study-record`: credits
`Math.floor((recordData.duration || 0) / 15) * 10` XP, applies the streak
transition, and overwrites `lastStudyDate` with the current instant.
Returns the updated profile together with `xpGained` as the handler reports
it in the response. -/
def applyStudyRecord (p : UserProfile) (duration : Nat) (now : Int) :
    UserProfile × Nat :=
  let xpGained := duration / 15 * 10
  ({ p with
      xp := p.xp + xpGained
      streak := newStreakOf p now
      lastStudyDate := some now },
   xpGained)

/-- Review-timestamp generation of `POST /review-schedule`: fixed offsets of
1, 3, 7, 14 and 30 days from the study instant, each day being exactly
`86400000` milliseconds (`new Date(studyDate.getTime() + k * 86400000)`). -/
def generateReviewSchedule (t : Int) : List Int :=
  [t + 1 * 86400000,
   t + 3 * 86400000,
   t + 7 * 86400000,
   t + 14 * 86400000,
   t + 30 * 86400000]

/-- A stored review schedule record:
`{ userId, topic, studiedAt, reviews, completedReviews, createdAt }`. -/
structure ReviewSchedule where
  userId : String
  topic : String
  studiedAt : Int
  reviews : List Int
  completedReviews : List Int
  createdAt : Int
deriving DecidableEq, Repr

/-- Per-schedule due computation of `GET /reviews-due`:
`review.reviews.find(r => !review.completedReviews.includes(r) && r <= now)`. -/
def nextDueOf (s : ReviewSchedule) (now : Int) : Option Int :=
  s.reviews.find? (fun r => !(s.completedReviews.contains r) && decide (r ≤ now))

/-- `GET /reviews-due`: map each schedule to `{ ...review, nextDue }` when a
due entry exists, drop it otherwise (`.map(...).filter(Boolean)`). -/
def selectDueReviews (schedules : List ReviewSchedule) (now : Int) :
    List (ReviewSchedule × Int) :=
  schedules.filterMap (fun s => (nextDueOf s now).map (fun d => (s, d)))

/-- `POST /review-complete/:id`: `review.completedReviews.push(reviewDate)`
with no duplicate check, then `xp: (profile?.xp || 0) + 15` unconditionally. -/
def completeReview (s : ReviewSchedule) (p : UserProfile) (reviewDate : Int) :
    ReviewSchedule × UserProfile :=
  ({ s with completedReviews := s.completedReviews ++ [reviewDate] },
   { p with xp := p.xp + 15 })

/-- A stored task record; only the fields the update handler inspects are
modelled (`userId` for ownership, `completed` for the XP guard). -/
structure Task where
  userId : String
  completed : Bool
deriving DecidableEq, Repr

/-- The `completed` field of the JSON update body of `PUT /task/:id`:
absent (`none`) or a boolean.  JavaScript truthiness of `updates.completed`
is `true` exactly for `some true`. -/
structure TaskUpdate where
  completed : Option Bool
deriving DecidableEq, Repr

/-- Core of `PUT /task/:id`: shallow-merges the update into the task and
awards +20 XP only when `updates.completed && !task.completed`. -/
def applyTaskUpdate (task : Task) (p : UserProfile) (u : TaskUpdate) :
    Task × UserProfile :=
  let updatedTask := { task with completed := u.completed.getD task.completed }
  if u.completed.getD false && !task.completed then
    (updatedTask, { p with xp := p.xp + 20 })
  else
    (updatedTask, p)

/-- A stored goal record; only the fields the update handler inspects are
modelled. -/
structure Goal where
  userId : String
  progress : Nat
  completed : Bool
deriving DecidableEq, Repr

/-- The fields of the JSON update body of `PUT /goal/:id` that the handler
inspects. -/
structure GoalUpdate where
  progress : Option Nat
  completed : Option Bool
deriving DecidableEq, Repr

/-- Core of `PUT /goal/:id`: shallow-merges the update into the goal and
awards +100 XP only when `updates.completed && !goal.completed`. -/
def applyGoalUpdate (goal : Goal) (p : UserProfile) (u : GoalUpdate) :
    Goal × UserProfile :=
  let updatedGoal :=
    { goal with
        progress := u.progress.getD goal.progress
        completed := u.completed.getD goal.completed }
  if u.completed.getD false && !goal.completed then
    (updatedGoal, { p with xp := p.xp + 100 })
  else
    (updatedGoal, p)

/-- Profile mutation of `POST /routine`: marks onboarding complete and adds
the +50 setup bonus `xp: (profile?.xp || 0) + 50` with no guard on a previous
award. -/
def applyRoutine (p : UserProfile) : UserProfile :=
  { p with onboardingComplete := true, xp := p.xp + 50 }

/-- The `studiedAt` field of the JSON body of `POST /review-schedule`, by the
categories the expression `new Date(studiedAt || Date.now())` distinguishes:
absent (undefined, falsy), an empty string (present, falsy, and unparseable
as a date), a present parseable value denoting instant `t` (truthy), and a
present truthy value that does not parse (`new Date` yields an Invalid Date). -/
inductive StudiedAtField where
  | absent
  | emptyStr
  | parseable (t : Int)
  | garbage
deriving DecidableEq, Repr

/-- Outcome of `POST /review-schedule`: either a stored schedule based at
`studiedAt` (HTTP 200 with the reviews list), or the generic catch-all
`{ error: 'Failed to create review schedule' }` HTTP 500 response produced
when `toISOString` throws on an Invalid Date. -/
inductive SchedResult where
  | created (studiedAt : Int) (reviews : List Int)
  | internalError
deriving DecidableEq, Repr

/-- Core of `POST /review-schedule`: `studiedAt || Date.now()` substitutes the
current time for any falsy `studiedAt` (absent or the empty string); a truthy
unparseable value makes `new Date(...)` an Invalid Date, so the later
`toISOString()` calls throw a RangeError that the surrounding `try/catch`
converts into the generic 500 error; a parseable value is used as given. -/
def reviewScheduleHandler (f : StudiedAtField) (now : Int) : SchedResult :=
  match f with
  | .absent => .created now (generateReviewSchedule now)
  | .emptyStr => .created now (generateReviewSchedule now)
  | .parseable t => .created t (generateReviewSchedule t)
  | .garbage => .internalError

/-- A JSON scalar value, enough to model the profile fields clients send. -/
inductive JVal where
  | num (n : Int)
  | str (s : String)
  | boolean (b : Bool)
  | null
deriving DecidableEq, Repr

/-- A JSON object in insertion order, as JavaScript objects are. -/
def JObj : Type := List (String × JVal)

/-- JavaScript property assignment `o[k] = v`: replace the value at an
existing key in place, or append a new entry. -/
def setKey : JObj → String → JVal → JObj
  | [], k, v => [(k, v)]
  | kv :: rest, k, v =>
    if kv.1 = k then (k, v) :: rest else kv :: setKey rest k v

/-- JavaScript object spread `{ ...p, ...u }`: start from `p`'s entries and
assign each entry of `u` in order. -/
def objSpread (p u : JObj) : JObj :=
  u.foldl (fun acc kv => setKey acc kv.1 kv.2) p

/-- Property lookup `o[k]` on the insertion-order model. -/
def jLookup (o : JObj) (k : String) : Option JVal :=
  (o.find? (fun kv => kv.1 == k)).map Prod.snd

/-- Core of `POST /profile`: `const updatedProfile = { ...currentProfile,
...updates }` stored verbatim, with no validation or whitelisting of the
client-supplied fields. -/
def updateProfileHandler (currentProfile updates : JObj) : JObj :=
  objSpread currentProfile updates

/-! ## Helper lemmas -/

theorem utcDay_eq_ediv (t : Int) : utcDay t = t / 86400000 := by
  unfold utcDay msPerDay
  exact Int.fdiv_eq_ediv t (by norm_num)

theorem utcDay_sub_day (t : Int) : utcDay (t - msPerDay) = utcDay t - 1 := by
  rw [utcDay_eq_ediv, utcDay_eq_ediv]
  unfold msPerDay
  omega

theorem sorted_find?_min {l : List Int} {p : Int → Bool} {a : Int}
    (hs : List.Sorted (fun x y : Int => x < y) l)
    (h : l.find? p = some a) :
    ∀ b ∈ l, p b = true → a ≤ b := by
  induction l with
  | nil => simp at h
  | cons x xs ih =>
    rcases List.sorted_cons.mp hs with ⟨hx, hxs⟩
    by_cases hpx : p x = true
    · rw [List.find?_cons_of_pos _ hpx] at h
      injection h with h
      subst h
      intro b hb _
      rcases List.mem_cons.mp hb with rfl | hb
      · exact le_refl b
      · exact le_of_lt (hx b hb)
    · rw [List.find?_cons_of_neg _ (by simpa using hpx)] at h
      intro b hb hpb
      rcases List.mem_cons.mp hb with rfl | hb
      · exact absurd hpb hpx
      · exact ih hxs h b hb hpb

theorem duePred_iff (s : ReviewSchedule) (now r : Int) :
    (!(s.completedReviews.contains r) && decide (r ≤ now)) = true
      ↔ r ∉ s.completedReviews ∧ r ≤ now := by
  simp [List.contains_eq_any_beq]

theorem nextDueOf_eq_some {s : ReviewSchedule} {now nd : Int}
    (h : nextDueOf s now = some nd) :
    nd ∈ s.reviews ∧ nd ∉ s.completedReviews ∧ nd ≤ now := by
  unfold nextDueOf at h
  have hp := List.find?_some (p := fun r =>
    !(s.completedReviews.contains r) && decide (r ≤ now)) h
  exact ⟨List.mem_of_find?_eq_some h, (duePred_iff s now nd).mp hp⟩

theorem nextDueOf_isSome {s : ReviewSchedule} {now : Int}
    (h : ∃ r ∈ s.reviews, r ∉ s.completedReviews ∧ r ≤ now) :
    ∃ nd, nextDueOf s now = some nd := by
  rcases h with ⟨r, hr, hprop⟩
  have : (nextDueOf s now).isSome := by
    rw [nextDueOf, List.find?_isSome]
    exact ⟨r, hr, (duePred_iff s now r).mpr hprop⟩
  exact Option.isSome_iff_exists.mp this

theorem mem_selectDueReviews {schedules : List ReviewSchedule} {now : Int}
    {s : ReviewSchedule} {nd : Int} :
    (s, nd) ∈ selectDueReviews schedules now
      ↔ s ∈ schedules ∧ nextDueOf s now = some nd := by
  unfold selectDueReviews
  rw [List.mem_filterMap]
  constructor
  · rintro ⟨a, ha, hfa⟩
    rcases Option.map_eq_some'.mp hfa with ⟨v, hv, hfv⟩
    injection hfv with h1 h2
    subst h1
    subst h2
    exact ⟨ha, hv⟩
  · rintro ⟨hmem, hnd⟩
    exact ⟨s, hmem, by rw [hnd]; rfl⟩

/-! ## Claims -/

/-- C1: for every valid timestamp `T` passed as `studiedAt`, the generated
reviews list has exactly 5 timestamps, strictly ascending, equal to
`T + {1,3,7,14,30}` days where each day is exactly 86400 seconds, i.e. fixed
millisecond offsets with no calendar-month adjustment. -/
theorem generateReviewSchedule_correct (t : Int) :
    (generateReviewSchedule t).length = 5
    ∧ List.Sorted (fun a b : Int => a < b) (generateReviewSchedule t)
    ∧ generateReviewSchedule t =
        [t + 86400000, t + 259200000, t + 604800000, t + 1209600000,
         t + 2592000000]
    ∧ generateReviewSchedule t =
        ([1, 3, 7, 14, 30] : List Int).map (fun d => t + d * (86400 * 1000)) := by
  refine ⟨rfl, ?_, by norm_num [generateReviewSchedule], by
    norm_num [generateReviewSchedule]⟩
  simp only [generateReviewSchedule, List.sorted_cons, List.mem_cons,
    List.mem_singleton, List.not_mem_nil, List.sorted_nil]
  norm_num

/-- C2: with `lastStudyDate` on UTC calendar day `D`, logging on the same UTC
day leaves the streak unchanged; logging on day `D + 1` increments it; logging
on day `D + 2` or later resets it to 1; a `null` `lastStudyDate` also yields
streak 1; and in every case `lastStudyDate` is overwritten with the current
instant. -/
theorem applyStudyRecord_streak_law (p : UserProfile) (d : Nat) (now : Int) :
    (applyStudyRecord p d now).1.lastStudyDate = some now
    ∧ (p.lastStudyDate = none → (applyStudyRecord p d now).1.streak = 1)
    ∧ ∀ D, p.lastStudyDate = some D →
        ((utcDay now = utcDay D → (applyStudyRecord p d now).1.streak = p.streak)
         ∧ (utcDay now = utcDay D + 1 →
              (applyStudyRecord p d now).1.streak = p.streak + 1)
         ∧ (utcDay D + 2 ≤ utcDay now →
              (applyStudyRecord p d now).1.streak = 1)) := by
  refine ⟨rfl, ?_, ?_⟩
  · intro h
    simp [applyStudyRecord, newStreakOf, h]
  · intro D hD
    have hsub := utcDay_sub_day now
    refine ⟨?_, ?_, ?_⟩
    · intro heq
      simp [applyStudyRecord, newStreakOf, hD, heq]
    · intro heq
      have h1 : ¬ utcDay (now - msPerDay) = utcDay now := by omega
      have h2 : utcDay D = utcDay (now - msPerDay) := by omega
      simp [applyStudyRecord, newStreakOf, hD, h1, h2]
    · intro hge
      have h1 : utcDay D ≠ utcDay now := by omega
      have h2 : utcDay D ≠ utcDay (now - msPerDay) := by omega
      simp [applyStudyRecord, newStreakOf, hD, h1, h2]

/-- C2 witness: a profile last studied on UTC day 1, logging on day 2,
increments its streak. -/
def profileDay1 : UserProfile :=
  { name := "a", email := "a at b", xp := 0, level := 1, streak := 2,
    lastStudyDate := some 86400000, onboardingComplete := true }

theorem applyStudyRecord_streak_law_witness :
    (applyStudyRecord profileDay1 45 172800000).1.streak = profileDay1.streak + 1 :=
  ((applyStudyRecord_streak_law profileDay1 45 172800000).2.2 86400000
    rfl).2.1 (by decide)

/-- C4: a study session of duration `d` minutes credits exactly
`floor(d / 15) * 10` XP to the profile; in particular a 45-minute session
credits +30. -/
theorem applyStudyRecord_xp (p : UserProfile) (d : Nat) (now : Int) :
    (applyStudyRecord p d now).2 = d / 15 * 10
    ∧ (applyStudyRecord p d now).1.xp = p.xp + d / 15 * 10
    ∧ (applyStudyRecord p 45 now).1.xp = p.xp + 30 := by
  refine ⟨rfl, rfl, ?_⟩
  simp [applyStudyRecord]

/-- C3: over schedules with ascending reviews lists, due-review selection
returns exactly the schedules having a review timestamp that is not yet in
`completedReviews` and is `<= now`; each returned entry carries `nextDue`
equal to the earliest such timestamp; no fully-completed schedule, and no
schedule whose earliest incomplete review is still in the future, is ever
returned. -/
theorem selectDueReviews_correct (schedules : List ReviewSchedule) (now : Int)
    (hs : ∀ s ∈ schedules, List.Sorted (fun a b : Int => a < b) s.reviews) :
    (∀ s ∈ schedules,
        ((∃ nd, (s, nd) ∈ selectDueReviews schedules now)
          ↔ ∃ r ∈ s.reviews, r ∉ s.completedReviews ∧ r ≤ now))
    ∧ (∀ s nd, (s, nd) ∈ selectDueReviews schedules now →
        nd ∈ s.reviews ∧ nd ∉ s.completedReviews ∧ nd ≤ now
          ∧ ∀ r ∈ s.reviews, r ∉ s.completedReviews → r ≤ now → nd ≤ r)
    ∧ (∀ s nd, (s, nd) ∈ selectDueReviews schedules now →
        ¬ ∀ r ∈ s.reviews, r ∈ s.completedReviews)
    ∧ (∀ s nd r0, (s, nd) ∈ selectDueReviews schedules now →
        r0 ∈ s.reviews → r0 ∉ s.completedReviews →
        (∀ r ∈ s.reviews, r ∉ s.completedReviews → r0 ≤ r) → r0 ≤ now) := by
  have hmain : ∀ s nd, (s, nd) ∈ selectDueReviews schedules now →
      nd ∈ s.reviews ∧ nd ∉ s.completedReviews ∧ nd ≤ now
        ∧ ∀ r ∈ s.reviews, r ∉ s.completedReviews → r ≤ now → nd ≤ r := by
    intro s nd hmem
    rcases mem_selectDueReviews.mp hmem with ⟨hsched, hnd⟩
    rcases nextDueOf_eq_some hnd with ⟨h1, h2, h3⟩
    refine ⟨h1, h2, h3, ?_⟩
    intro r hr hrc hrn
    exact sorted_find?_min (hs s hsched) hnd r hr ((duePred_iff s now r).mpr ⟨hrc, hrn⟩)
  refine ⟨?_, hmain, ?_, ?_⟩
  · intro s hsched
    constructor
    · rintro ⟨nd, hmem⟩
      rcases hmain s nd hmem with ⟨h1, h2, h3, _⟩
      exact ⟨nd, h1, h2, h3⟩
    · intro hex
      rcases nextDueOf_isSome hex with ⟨nd, hnd⟩
      exact ⟨nd, mem_selectDueReviews.mpr ⟨hsched, hnd⟩⟩
  · intro s nd hmem hall
    rcases hmain s nd hmem with ⟨h1, h2, _, _⟩
    exact h2 (hall nd h1)
  · intro s nd r0 hmem hr0 hr0c hmin
    rcases hmain s nd hmem with ⟨h1, h2, h3, _⟩
    exact le_trans (hmin nd h1 h2) h3

/-- C3 witness data: one schedule studied at epoch, first review completed. -/
def schedX : ReviewSchedule :=
  { userId := "u", topic := "X", studiedAt := 0,
    reviews := [86400000, 259200000, 604800000, 1209600000, 2592000000],
    completedReviews := [86400000], createdAt := 0 }

theorem selectDueReviews_correct_witness :
    (∀ s ∈ [schedX], List.Sorted (fun a b : Int => a < b) s.reviews)
    ∧ ((∀ s ∈ [schedX],
        ((∃ nd, (s, nd) ∈ selectDueReviews [schedX] 259200000)
          ↔ ∃ r ∈ s.reviews, r ∉ s.completedReviews ∧ r ≤ 259200000))
    ∧ (∀ s nd, (s, nd) ∈ selectDueReviews [schedX] 259200000 →
        nd ∈ s.reviews ∧ nd ∉ s.completedReviews ∧ nd ≤ 259200000
          ∧ ∀ r ∈ s.reviews, r ∉ s.completedReviews → r ≤ 259200000 → nd ≤ r)
    ∧ (∀ s nd, (s, nd) ∈ selectDueReviews [schedX] 259200000 →
        ¬ ∀ r ∈ s.reviews, r ∈ s.completedReviews)
    ∧ (∀ s nd r0, (s, nd) ∈ selectDueReviews [schedX] 259200000 →
        r0 ∈ s.reviews → r0 ∉ s.completedReviews →
        (∀ r ∈ s.reviews, r ∉ s.completedReviews → r0 ≤ r) → r0 ≤ 259200000)) :=
  ⟨by decide, selectDueReviews_correct [schedX] 259200000 (by decide)⟩

/-- C5: task-completion XP is guarded on the previous stored state: when the
stored task is already completed the update credits zero XP, and +20 is
credited exactly on the `false` to `true` transition requested by the client. -/
theorem applyTaskUpdate_xp_guarded (t : Task) (p : UserProfile) (u : TaskUpdate) :
    (t.completed = true → (applyTaskUpdate t p u).2.xp = p.xp)
    ∧ (applyTaskUpdate t p u).2.xp =
        (if u.completed = some true ∧ t.completed = false
         then p.xp + 20 else p.xp) := by
  constructor
  · intro h
    simp [applyTaskUpdate, h]
  · cases hu : u.completed with
    | none => simp [applyTaskUpdate, hu]
    | some b =>
      cases b <;> cases ht : t.completed <;> simp [applyTaskUpdate, hu, ht]

/-- C5 witness: re-submitting `completed = true` for an already-completed
task leaves the profile XP unchanged. -/
theorem applyTaskUpdate_xp_guarded_witness :
    (applyTaskUpdate { userId := "u", completed := true }
      { name := "a", email := "b", xp := 120, level := 1, streak := 0,
        lastStudyDate := none, onboardingComplete := true }
      { completed := some true }).2.xp = 120 :=
  (applyTaskUpdate_xp_guarded { userId := "u", completed := true }
      { name := "a", email := "b", xp := 120, level := 1, streak := 0,
        lastStudyDate := none, onboardingComplete := true }
      { completed := some true }).1 rfl

/-- C6: stored XP never decreases through the normal flow: study-record
creation, task update, goal update, review completion, and routine creation
each leave the profile XP at least what it was. -/
theorem xp_monotone :
    (∀ (p : UserProfile) (d : Nat) (now : Int),
        p.xp ≤ (applyStudyRecord p d now).1.xp)
    ∧ (∀ (t : Task) (p : UserProfile) (u : TaskUpdate),
        p.xp ≤ (applyTaskUpdate t p u).2.xp)
    ∧ (∀ (g : Goal) (p : UserProfile) (u : GoalUpdate),
        p.xp ≤ (applyGoalUpdate g p u).2.xp)
    ∧ (∀ (s : ReviewSchedule) (p : UserProfile) (r : Int),
        p.xp ≤ (completeReview s p r).2.xp)
    ∧ (∀ p : UserProfile, p.xp ≤ (applyRoutine p).xp) := by
  refine ⟨?_, ?_, ?_, ?_, ?_⟩
  · intro p d now
    simp [applyStudyRecord]
  · intro t p u
    unfold applyTaskUpdate
    split <;> simp
  · intro g p u
    unfold applyGoalUpdate
    split <;> simp
  · intro s p r
    simp [completeReview]
  · intro p
    simp [applyRoutine]

/-- C7 (violated by the code): the routine handler adds the +50 setup bonus
on every submission, with no guard on `onboardingComplete` or any other
already-awarded flag, so a second submission credits another +50 (total +100
over two submissions instead of at most +50). -/
theorem applyRoutine_reawards_bonus (p : UserProfile) :
    (applyRoutine p).xp = p.xp + 50
    ∧ (applyRoutine (applyRoutine p)).xp = p.xp + 100
    ∧ (applyRoutine { p with onboardingComplete := true }).xp = p.xp + 50 := by
  refine ⟨rfl, ?_, rfl⟩
  simp [applyRoutine]

/-- C8: completing a review appends the submitted timestamp to
`completedReviews` with no duplicate check (its multiplicity always grows by
one) and unconditionally credits +15 XP, for every submitted timestamp,
duplicates included. -/
theorem completeReview_unconditional (s : ReviewSchedule) (p : UserProfile)
    (rd : Int) :
    (completeReview s p rd).1.completedReviews = s.completedReviews ++ [rd]
    ∧ (completeReview s p rd).1.completedReviews.count rd
        = s.completedReviews.count rd + 1
    ∧ (completeReview s p rd).2.xp = p.xp + 15 := by
  refine ⟨rfl, ?_, rfl⟩
  simp [completeReview]

/-- C9 (code diverges from the claim): a present but unparseable `studiedAt`
is not rejected with an InvalidInput error: an empty string is falsy, so
`studiedAt || Date.now()` silently substitutes the current time and the
handler succeeds; a truthy unparseable string makes `toISOString` throw and
the handler returns the generic catch-all 500, not an InvalidInput
response; only the absent case is supposed to default silently. -/
theorem reviewScheduleHandler_behaviour (now : Int) :
    reviewScheduleHandler StudiedAtField.emptyStr now
      = SchedResult.created now (generateReviewSchedule now)
    ∧ reviewScheduleHandler StudiedAtField.garbage now = SchedResult.internalError
    ∧ reviewScheduleHandler StudiedAtField.absent now
      = SchedResult.created now (generateReviewSchedule now) :=
  ⟨rfl, rfl, rfl⟩

theorem jLookup_setKey_self (o : JObj) (k : String) (v : JVal) :
    jLookup (setKey o k v) k = some v := by
  induction o with
  | nil => simp [setKey, jLookup]
  | cons kv rest ih =>
    unfold setKey
    by_cases h : kv.1 = k
    · rw [if_pos h]
      simp [jLookup]
    · rw [if_neg h]
      unfold jLookup
      rw [List.find?_cons_of_neg _ (by simp [h])]
      exact ih

theorem jLookup_setKey_ne (o : JObj) (k k' : String) (v : JVal)
    (hk : k' ≠ k) :
    jLookup (setKey o k v) k' = jLookup o k' := by
  induction o with
  | nil =>
    simp [setKey, jLookup, List.find?_singleton, Ne.symm hk]
  | cons kv rest ih =>
    unfold setKey
    by_cases h : kv.1 = k
    · rw [if_pos h]
      unfold jLookup
      rw [List.find?_cons_of_neg _ (by simp [Ne.symm hk]),
        List.find?_cons_of_neg _ (by simp [h, Ne.symm hk])]
    · rw [if_neg h]
      unfold jLookup
      by_cases h2 : kv.1 = k'
      · rw [List.find?_cons_of_pos _ (by simp [h2]),
          List.find?_cons_of_pos _ (by simp [h2])]
      · rw [List.find?_cons_of_neg _ (by simp [h2]),
          List.find?_cons_of_neg _ (by simp [h2])]
        exact ih

theorem jLookup_eq_none_of_not_mem (o : JObj) (k : String)
    (h : k ∉ o.map Prod.fst) :
    jLookup o k = none := by
  unfold jLookup
  rw [List.find?_eq_none.mpr]
  · rfl
  · intro kv hkv hbeq
    exact h (List.mem_map.mpr ⟨kv, hkv, by simpa using hbeq⟩)

theorem jLookup_objSpread_of_none (u : JObj) :
    ∀ (p : JObj) (k : String), jLookup u k = none →
      jLookup (objSpread p u) k = jLookup p k := by
  induction u with
  | nil => intro p k _; rfl
  | cons kv rest ih =>
    intro p k h
    have h1 : ¬ (kv.1 == k) = true := by
      intro hb
      unfold jLookup at h
      rw [List.find?_cons_of_pos (p := fun x => x.1 == k) rest hb] at h
      simp at h
    have h2 : jLookup rest k = none := by
      unfold jLookup at h ⊢
      rw [List.find?_cons_of_neg _ (by simpa using h1)] at h
      exact h
    have hne : k ≠ kv.1 := fun he => h1 (by simp [he])
    calc jLookup (objSpread (setKey p kv.1 kv.2) rest) k
        = jLookup (setKey p kv.1 kv.2) k := ih _ k h2
      _ = jLookup p k := jLookup_setKey_ne p kv.1 k kv.2 hne

theorem jLookup_objSpread_of_some (u : JObj) :
    ∀ (p : JObj) (k : String) (v : JVal), (u.map Prod.fst).Nodup →
      jLookup u k = some v →
      jLookup (objSpread p u) k = some v := by
  induction u with
  | nil => intro p k v _ h; simp [jLookup] at h
  | cons kv rest ih =>
    intro p k v hnd h
    have hnd' : (kv.1 :: rest.map Prod.fst).Nodup := by simpa using hnd
    rcases List.nodup_cons.mp hnd' with ⟨hk0, hrest⟩
    by_cases hb : (kv.1 == k) = true
    · have hk : kv.1 = k := by simpa using hb
      have hv : kv.2 = v := by
        unfold jLookup at h
        rw [List.find?_cons_of_pos (p := fun x => x.1 == k) rest hb] at h
        simpa using h
      have hnone : jLookup rest k = none :=
        jLookup_eq_none_of_not_mem rest k (hk ▸ hk0)
      have hstep : objSpread p (kv :: rest)
          = objSpread (setKey p kv.1 kv.2) rest := rfl
      rw [hstep, jLookup_objSpread_of_none rest _ k hnone, ← hk,
        jLookup_setKey_self, hv]
    · have h2 : jLookup rest k = some v := by
        unfold jLookup at h ⊢
        rw [List.find?_cons_of_neg _ (by simpa using hb)] at h
        exact h
      exact ih (setKey p kv.1 kv.2) k v hrest h2

/-- C10 witness data: a stored profile and a client update body overwriting
`xp` and `onboardingComplete`. -/
def profileStored : JObj :=
  [("name", JVal.str "a"), ("xp", JVal.num 100), ("streak", JVal.num 3),
   ("onboardingComplete", JVal.boolean true)]

def clientUpdate : JObj :=
  [("xp", JVal.num 0), ("onboardingComplete", JVal.boolean false)]

/-- C10: `POST /profile` stores exactly the shallow merge of the stored
profile overridden by the client body, with no validation or whitelisting:
every field of the update is stored verbatim and every other field is kept;
in particular a client body can lower `xp` from 100 to 0 and reset
`onboardingComplete` to `false`, bypassing the ledger rules. -/
theorem updateProfileHandler_merge (p u : JObj)
    (hu : (u.map Prod.fst).Nodup) :
    (∀ k v, jLookup u k = some v →
        jLookup (updateProfileHandler p u) k = some v)
    ∧ (∀ k, jLookup u k = none →
        jLookup (updateProfileHandler p u) k = jLookup p k)
    ∧ (jLookup profileStored "xp" = some (JVal.num 100)
        ∧ jLookup (updateProfileHandler profileStored clientUpdate) "xp"
            = some (JVal.num 0)
        ∧ jLookup profileStored "onboardingComplete" = some (JVal.boolean true)
        ∧ jLookup (updateProfileHandler profileStored clientUpdate)
            "onboardingComplete" = some (JVal.boolean false)) := by
  refine ⟨?_, ?_, by decide, by decide, by decide, by decide⟩
  · intro k v hv
    exact jLookup_objSpread_of_some u p k v hu hv
  · intro k hk
    exact jLookup_objSpread_of_none u p k hk

/-- C10 witness: the concrete update overwrites the stored `xp` of 100 with
0, a decrease. -/
theorem updateProfileHandler_merge_witness :
    (clientUpdate.map Prod.fst).Nodup
    ∧ jLookup (updateProfileHandler profileStored clientUpdate) "xp"
        = some (JVal.num 0) :=
  ⟨by decide,
   (updateProfileHandler_merge profileStored clientUpdate (by decide)).2.2.2.1⟩

end StudyApp
